import Mathlib

/-!
Verification development for the `sync_srm.py` synchronization engine of the
topNanoAOD-scripts repository.  The Python code is shallowly embedded: pure
string manipulation becomes Lean string functions, the filesystem becomes an
explicit association-list state, external subprocess calls (directory listing,
`gfal-copy`) become oracle parameters, and the asyncio scheduler loop becomes a
fold over the tasks in their completion order.
-/

/-! ## String helpers mirroring the Python `str` methods used by `sync_srm.py` -/

/-- Python `s.strip(stripChar)` for a single strip character: removes the
character from both ends. -/
def stripEndsChar (ch : Char) (cs : List Char) : List Char :=
  ((cs.dropWhile (fun c => c == ch)).reverse.dropWhile (fun c => c == ch)).reverse

/-- Python `s.strip("/")`. -/
def pyStripSlashes (s : String) : String :=
  String.mk (stripEndsChar '/' s.toList)

/-- Python `s.rstrip("/")`. -/
def pyRstripSlashes (s : String) : String :=
  String.mk ((s.toList.reverse.dropWhile (fun c => c == '/')).reverse)

/-- Python `s.lstrip("/")`. -/
def pyLstripSlashes (s : String) : String :=
  String.mk (s.toList.dropWhile (fun c => c == '/'))

/-- Characters Python `str.strip()` removes (ASCII whitespace). -/
def isPySpace (c : Char) : Bool :=
  c == ' ' || c == '\t' || c == '\n' || c == '\r' || c == '\x0b' || c == '\x0c'

/-- Python `s.strip()` (whitespace strip on both ends). -/
def pyStripWS (s : String) : String :=
  String.mk (((s.toList.dropWhile isPySpace).reverse.dropWhile isPySpace).reverse)

/-- Python `s.startswith(pre)` (character-wise prefix test). -/
def pyStartsWith (s pre : String) : Bool :=
  pre.toList.isPrefixOf s.toList

/-- Python `s[n:]` for a nonnegative `n` (drop the first `n` characters). -/
def pyDropChars (s : String) (n : Nat) : String :=
  String.mk (s.toList.drop n)

/-- Python `"/".join(parts)`. -/
def joinWithSlash (parts : List String) : String :=
  String.mk (List.intercalate ['/'] (parts.map String.toList))

/-- Python `" ".join(parts)`. -/
def joinWithSpace (parts : List String) : String :=
  String.mk (List.intercalate [' '] (parts.map String.toList))

/-- Left-to-right non-overlapping split on the separator `"/./"`, accumulating
the current piece in reverse; mirrors Python `joined.split("/./")` as used in
`joinUrl` (`sync_srm.py` line 38). -/
def splitDotAux : List Char → List Char → List (List Char)
  | acc, '/' :: '.' :: '/' :: rest => acc.reverse :: splitDotAux [] rest
  | acc, c :: rest => splitDotAux (c :: acc) rest
  | acc, [] => [acc.reverse]

/-- Python `s.split("/./")`. -/
def splitDotSegs (s : String) : List String :=
  (splitDotAux [] s.toList).map String.mk

/-- Index of the last `'/'` in a character list (Python `s.rfind("/")` when it
is nonnegative; `none` corresponds to Python's `-1`). -/
def lastSlashIdx (cs : List Char) : Option Nat :=
  match cs.reverse.findIdx? (fun c => c == '/') with
  | none => none
  | some j => some (cs.length - 1 - j)

/-- Python `os.path.join(a, b)` (POSIX, two arguments): an absolute second part
replaces the first, otherwise the parts are glued with exactly one separator
unless the first already ends with one or is empty. -/
def pyPathJoin (a b : String) : String :=
  if pyStartsWith b "/" then b
  else if a == "" then a ++ b
  else match a.toList.getLast? with
    | some c => if c == '/' then a ++ b else a ++ "/" ++ b
    | none => a ++ b

/-- Python `os.path.dirname(p)` (POSIX): everything up to the last separator,
with trailing separators stripped unless the result is all separators. -/
def pyDirname (p : String) : String :=
  let cs := p.toList
  match lastSlashIdx cs with
  | none => ""
  | some i =>
    let head := cs.take (i + 1)
    if head.all (fun c => c == '/') then String.mk head
    else String.mk ((head.reverse.dropWhile (fun c => c == '/')).reverse)

/-- Python `os.path.abspath(p)` restricted to the inputs the embedding uses:
an absolute path is returned as is, a relative one is joined to the current
working directory (`os.path.normpath` simplification is elided; the paths fed
to it in this development are already normalized). -/
def pyAbspath (cwd p : String) : String :=
  if pyStartsWith p "/" then p else pyPathJoin cwd p

/-! ## `joinUrl` (`sync_srm.py` lines 28-38) -/

/-- Middle parts are stripped of separators on both ends, the last part only on
the left; mirrors the generator arguments of `"/".join` in `joinUrl`. -/
def tailProcess : List String → List String
  | [] => []
  | [x] => [pyLstripSlashes x]
  | x :: xs => pyStripSlashes x :: tailProcess xs

/-- Core of `joinUrl` for a nonempty argument list `p0 :: ps`: when there are at
least two parts, parts other than the first whose slash-strip equals `"."` are
dropped; a single surviving part is returned unchanged; otherwise the parts are
joined with single slashes and any remaining `"/./"` infix is collapsed. -/
def joinUrlCore (p0 : String) (ps : List String) : String :=
  let ps1 := if ps.isEmpty then ps else ps.filter (fun p => pyStripSlashes p != ".")
  match ps1 with
  | [] => p0
  | q :: qs =>
    let joined := joinWithSlash (pyRstripSlashes p0 :: tailProcess (q :: qs))
    joinWithSlash (splitDotSegs joined)

/-- `joinUrl(*parts)`: join URL parts, collapsing the slashes in between parts;
zero arguments raise `ValueError` (`sync_srm.py` lines 28-38). -/
def joinUrl : List String → Except String String
  | [] => .error "Need at least one argument"
  | p :: ps => .ok (joinUrlCore p ps)

/-! ## Progress thresholds (`sync_srm.py` lines 206-224) -/

/-- Python 3 `round(num / den)` for nonnegative integers `num`, `den > 0`:
round half to even.  The Python source computes `round(x*len(tasks)/100)` in
floating point; for the magnitudes involved the float quotient ties exactly
when the rational one does, so exact rational rounding is faithful. -/
def pyRound (num den : Nat) : Nat :=
  let q := num / den
  let r := num % den
  if 2 * r < den then q
  else if den < 2 * r then q + 1
  else if q % 2 = 0 then q else q + 1

/-- The precomputed progress thresholds `[int(round(x*n/100)) for x in range(1, 101)]`. -/
def progThresholds (n : Nat) : List Nat :=
  (List.range 100).map (fun i => pyRound ((i + 1) * n) 100)

/-! ## Filesystem state and `DownloadTask` (`sync_srm.py` lines 86-123) -/

/-- Local filesystem state: files (path, byte size) and existing directories.
`os.path.exists`/`os.path.getsize` become lookups, `os.remove` an erase,
`os.path.isdir`/`os.makedirs` membership and insertion in `dirs`. -/
structure FileSys where
  files : List (String × Nat)
  dirs : List String
deriving DecidableEq, Repr

/-- Size of the file at `p`, `none` when it does not exist. -/
def fsSize (fs : FileSys) (p : String) : Option Nat :=
  (fs.files.find? (fun e => e.1 == p)).map (fun e => e.2)

/-- `os.remove(p)`. -/
def fsRemove (fs : FileSys) (p : String) : FileSys :=
  { fs with files := fs.files.filter (fun e => e.1 != p) }

/-- `os.path.isdir(d)`. -/
def fsHasDir (fs : FileSys) (d : String) : Bool :=
  fs.dirs.contains d

/-- `os.makedirs(d)` (parents are not tracked individually). -/
def fsMkdir (fs : FileSys) (d : String) : FileSys :=
  { fs with dirs := d :: fs.dirs }

/-- The `DownloadTask` object: origin URL, destination path, expected size, and
the `_done` flag computed at construction (`sync_srm.py` lines 86-92). -/
structure DownloadTask where
  origUrl : String
  dest : String
  nBytes : Nat
  done : Bool
deriving DecidableEq, Repr

/-- The warning `DownloadTask._checkDone` logs before removing an undersized
local file (`sync_srm.py` line 105). -/
def sizeWarnMsg (dest : String) (dsk n : Nat) : String :=
  "Disk size of " ++ dest ++ " is " ++ toString dsk ++ ", but " ++ toString n ++
    " is expected from SRM, removing"

/-- Result of `DownloadTask._checkDone`: the `_done` value, the filesystem
after the call, warnings logged, and files removed. -/
structure CheckOut where
  done : Bool
  fs : FileSys
  warns : List String
  removed : List String
deriving DecidableEq, Repr

/-- `DownloadTask._checkDone` (`sync_srm.py` lines 97-107): no destination file
means pending; an on-disk size at least `nBytes` means done; a smaller on-disk
size logs a warning, removes the file and stays pending. -/
def checkDone (fs : FileSys) (dest : String) (nBytes : Nat) : CheckOut :=
  match fsSize fs dest with
  | none => ⟨false, fs, [], []⟩
  | some dskSize =>
    if nBytes ≤ dskSize then ⟨true, fs, [], []⟩
    else ⟨false, fsRemove fs dest, [sizeWarnMsg dest dskSize nBytes], [dest]⟩

/-- Result of constructing a `DownloadTask` (`__init__` runs `_checkDone`). -/
structure MkOut where
  task : DownloadTask
  fs : FileSys
  warns : List String
  removed : List String
deriving DecidableEq, Repr

/-- `DownloadTask.__init__` (`sync_srm.py` lines 88-92): stores the fields and
immediately classifies itself through `_checkDone`. -/
def mkTask (fs : FileSys) (origUrl dest : String) (nBytes : Nat) : MkOut :=
  let c := checkDone fs dest nBytes
  ⟨⟨origUrl, dest, nBytes, c.done⟩, c.fs, c.warns, c.removed⟩

/-- `DOWNLOAD_COMMAND` (`sync_srm.py` line 17). -/
def DOWNLOAD_COMMAND : String := "gfal-copy"

/-- `DownloadTask._dlArgs` (`sync_srm.py` lines 108-109). -/
def dlArgs (cwd : String) (t : DownloadTask) : List String :=
  [DOWNLOAD_COMMAND, t.origUrl, pyAbspath cwd t.dest]

/-- The error `subproc_check_call` logs for a non-zero exit status
(`sync_srm.py` lines 44-45).  Note that it only logs: unlike
`subprocess.check_call`, no exception is raised and no status is returned. -/
def cmdErrMsg (args : List String) (rc : Int) : String :=
  "Command \x27" ++ joinWithSpace args ++ "\x27 exited with status code " ++ toString rc

/-- Observable outcome of `DownloadTask.run` (`sync_srm.py` lines 110-121):
the task as returned (with its possibly updated `_done`), the status / message
pair handed to the scheduler, the copy invocations spawned, the directories
created, the errors logged by `subproc_check_call`, and the filesystem. -/
structure RunResult where
  task : DownloadTask
  stat : String
  msg : String
  copies : List String
  mkdirs : List String
  errors : List String
  fs : FileSys
deriving DecidableEq, Repr

/-- `DownloadTask.run` with the copy subprocess exit code `rc` supplied as an
oracle.  A done task returns immediately without any copy invocation; a
pending task creates the destination directory if needed, invokes the copy
command, and — regardless of the exit code, which `subproc_check_call` only
logs — sets `_done = True` and reports `("OK", "Downloaded")`.  The
`self._done is None` branch of the source is unreachable because `_checkDone`
only returns booleans, so it is not modelled. -/
def runTask (cwd : String) (fs : FileSys) (t : DownloadTask) (rc : Int) : RunResult :=
  if t.done then ⟨t, "OK", "Already downloaded", [], [], [], fs⟩
  else
    let dirName := pyDirname t.dest
    let fs1 := if fsHasDir fs dirName then fs else fsMkdir fs dirName
    let mks := if fsHasDir fs dirName then [] else [dirName]
    let args := dlArgs cwd t
    ⟨⟨t.origUrl, t.dest, t.nBytes, true⟩, "OK", "Downloaded", [joinWithSpace args], mks,
      if rc == 0 then [] else [cmdErrMsg args rc], fs1⟩

/-! ## The scheduler loop (`sync_srm.py` lines 199-224) -/

/-- Aggregate outcome of the download loop in `main`. -/
structure SchedResult where
  fs : FileSys
  countOK : Nat
  countDone : Nat
  progressLines : List Nat
  errors : List String
  copies : List String
  mkdirs : List String
deriving DecidableEq, Repr

/-- One pass over the completed tasks in completion order (`asyncio.as_completed`
makes that order nondeterministic; the counts and sets of effects modelled here
do not depend on it).  `thr` is the not-yet-consumed tail of the threshold
iterator with `nextProg` at its head: a progress line is emitted exactly when
`countDone` equals the head, and only then does the iterator advance
(`sync_srm.py` lines 209-223; the `StopIteration` handler keeps the exhausted
state, represented by `[]`). -/
def schedLoop (cwd : String) : FileSys → Nat → Nat → List Nat → List (DownloadTask × Int) → SchedResult
  | fs, cOK, cD, _thr, [] => ⟨fs, cOK, cD, [], [], [], []⟩
  | fs, cOK, cD, thr, p :: rest =>
    let res := runTask cwd fs p.1 p.2
    let cD1 := cD + 1
    let cOK1 := if res.stat == "OK" then cOK + 1 else cOK
    let sErrs := if res.stat == "OK" then []
      else [res.msg ++ " while downloading " ++ res.task.origUrl]
    let fire := thr.head? == some cD1
    let thr1 := if fire then thr.tail else thr
    let r := schedLoop cwd res.fs cOK1 cD1 thr1 rest
    ⟨r.fs, r.countOK, r.countDone, (if fire then [cD1] else []) ++ r.progressLines,
      res.errors ++ sErrs ++ r.errors, res.copies ++ r.copies, res.mkdirs ++ r.mkdirs⟩

/-- The download phase of `main` (`sync_srm.py` lines 199-224): keep only tasks
that are not yet done, and unless the list is empty or `--dry-run` was given,
drive them all to completion while counting successes and emitting progress
lines at the precomputed thresholds. -/
def scheduler (cwd : String) (fs : FileSys) (allTasks : List DownloadTask)
    (codes : List Int) (dryRun : Bool) : SchedResult :=
  let tasks := allTasks.filter (fun t => !t.done)
  if tasks.isEmpty || dryRun then ⟨fs, 0, 0, [], [], [], []⟩
  else schedLoop cwd fs 0 0 (progThresholds tasks.length) (tasks.zip codes)

/-- A fresh pending task used to probe progress reporting. -/
def probeTask : DownloadTask := ⟨"", "", 0, false⟩

/-- The completed-task counts at which a progress line is emitted for a batch
of `n` pending tasks that all succeed. -/
def reportedCounts (n : Nat) : List Nat :=
  (scheduler "" ⟨[], []⟩ (List.replicate n probeTask) (List.replicate n 0) false).progressLines

/-! ## `fnmatch.fnmatchcase` and the default file filter (`sync_srm.py` line 179) -/

/-- Membership of a character in an `fnmatch` bracket class body, with `a-b`
ranges compared by code point and other characters compared literally; a
trailing `-` is literal. -/
def inClassSpec : List Char → Char → Bool
  | [], _ => false
  | a :: '-' :: b :: rest, c => (a.val ≤ c.val && c.val ≤ b.val) || inClassSpec rest c
  | a :: rest, c => (a == c) || inClassSpec rest c

/-- Scan for the closing `]` of a bracket class, returning the accumulated
body and the remaining pattern; `none` when the class is unterminated. -/
def grabClass : List Char → List Char → Option (List Char × List Char)
  | _acc, [] => none
  | acc, ']' :: rest => some (acc.reverse, rest)
  | acc, c :: rest => grabClass (c :: acc) rest

/-- Parse an `fnmatch` bracket class right after `[`: an optional leading `!`
negates, a `]` immediately after (the optional `!`) is a literal member, and
the body extends to the next `]`.  Returns (negated, body, rest-of-pattern). -/
def parseClass (cs : List Char) : Option (Bool × List Char × List Char) :=
  match cs with
  | '!' :: cs1 =>
    (match cs1 with
     | ']' :: r => (grabClass [']'] r).map (fun pr => (true, pr.1, pr.2))
     | _ => (grabClass [] cs1).map (fun pr => (true, pr.1, pr.2)))
  | _ =>
    (match cs with
     | ']' :: r => (grabClass [']'] r).map (fun pr => (false, pr.1, pr.2))
     | _ => (grabClass [] cs).map (fun pr => (false, pr.1, pr.2)))

/-- `fnmatch.fnmatchcase(s, p)` on character lists: `*` matches any sequence,
`?` any single character, `[...]` a bracket class (an unterminated `[` is a
literal), everything else literally; the whole string must match. -/
def globMatch (p s : List Char) : Bool :=
  match p, s with
  | [], [] => true
  | [], _ :: _ => false
  | '*' :: ps, s0 =>
    globMatch ps s0 ||
      (match s0 with
       | [] => false
       | _ :: s1 => globMatch ('*' :: ps) s1)
  | '?' :: _, [] => false
  | '?' :: ps, _ :: s1 => globMatch ps s1
  | '[' :: ps, s0 =>
    (match parseClass ps with
     | some pr =>
       (match s0 with
        | [] => false
        | c :: s1 => (pr.1 != inClassSpec pr.2.1 c) && globMatch pr.2.2 s1)
     | none =>
       (match s0 with
        | [] => false
        | c :: s1 => (c == '[') && globMatch ps s1))
  | _ :: _, [] => false
  | c0 :: ps, c :: s1 => (c0 == c) && globMatch ps s1
termination_by (s.length, p.length)

/-- The default file selector of `main` (`sync_srm.py` line 179): the filename
must match the configured glob AND differ from the hard-coded
`"muonSet_randomized.root"`. -/
def fnFilter (pat fn : String) : Bool :=
  globMatch pat.toList fn.toList && fn != "muonSet_randomized.root"

/-! ## Recursive harvesting (`sync_srm.py` lines 128-141) -/

/-- The remote tree as seen through `srmls`: each node carries its
subdirectories (name, subtree) and its files (size, name), the shape
`list_directory` returns (`sync_srm.py` lines 55-68). -/
inductive RTree : Type where
  | node (subdirs : List (String × RTree)) (files : List (Nat × String)) : RTree

/-- Subdirectory entries of a node. -/
def subdirsOf : RTree → List (String × RTree)
  | .node sds _ => sds

/-- File entries (size, name) of a node. -/
def filesOf : RTree → List (Nat × String)
  | .node _ fls => fls

/-- A harvested task before construction against the local filesystem:
the arguments `harvestDownloadTasks` passes to `DownloadTask`. -/
structure TaskSpec where
  origUrl : String
  dest : String
  nBytes : Nat
deriving DecidableEq, Repr

/-- Everything one call of `harvestDownloadTasks` observably does: the listing
calls it issues (level, path), the tasks it yields, and for each yielded task
the (node path, file name, size) triple it was built from. -/
structure HarvestOut where
  listings : List (Nat × String)
  tasks : List TaskSpec
  names : List (String × String × Nat)
deriving DecidableEq, Repr

/-- The per-node part of `harvestDownloadTasks` (`sync_srm.py` lines 131-134):
list the node, then yield a task for every file whose name passes `fnSel`. -/
def harvestHere (srm origBase destBase : String) (fnSel : String → Bool)
    (t : RTree) (path : String) (lvl : Nat) : HarvestOut :=
  let sel := (filesOf t).filter (fun f => fnSel f.2)
  ⟨[(lvl, path)],
    sel.map (fun f => ⟨joinUrlCore srm [origBase, path, f.2],
      joinUrlCore destBase [path, f.2], f.1⟩),
    sel.map (fun f => (path, f.2, f.1))⟩

/-- `harvestDownloadTasks` (`sync_srm.py` lines 128-141): handle the current
node, and while `remainingLevels > 0` recurse into every subdirectory passing
`dirSel(currentLevel, name)` with the level incremented and the remaining depth
decremented.  Sibling branches complete in nondeterministic order; the
concatenation order chosen here fixes one interleaving, and no claim below
depends on it. -/
def harvest (srm origBase destBase : String) (dirSel : Nat → String → Bool)
    (fnSel : String → Bool) : RTree → String → Nat → Nat → HarvestOut
  | t, path, lvl, 0 => harvestHere srm origBase destBase fnSel t path lvl
  | t, path, lvl, rem + 1 =>
    let here := harvestHere srm origBase destBase fnSel t path lvl
    let children := ((subdirsOf t).filter (fun sd => dirSel lvl sd.1)).map
      (fun sd => harvest srm origBase destBase dirSel fnSel sd.2
        (joinUrlCore path [sd.1]) (lvl + 1) rem)
    ⟨here.listings ++ (children.map (fun c => c.listings)).flatten,
      here.tasks ++ (children.map (fun c => c.tasks)).flatten,
      here.names ++ (children.map (fun c => c.names)).flatten⟩

/-- The task a selected file produces, as a function of its (node path, file
name, size) triple. -/
def taskOfName (srm origBase destBase : String) (x : String × String × Nat) : TaskSpec :=
  ⟨joinUrlCore srm [origBase, x.1, x.2.1], joinUrlCore destBase [x.1, x.2.1], x.2.2⟩

/-- A linear remote tree of the given depth, used to witness that the harvester
reaches exactly the permitted number of levels. -/
def chainTree : Nat → RTree
  | 0 => .node [] []
  | d + 1 => .node [("sub/", chainTree d)] []

/-! ## Explicit-list mode (`sync_srm.py` lines 155-176 and 186-192) -/

/-- Split an LFN into parent directory and basename exactly as lines 159-161
do: `i = lfn.rfind("/")`, `ldir = lfn[:i]`, `lbase = lfn[(i+1):]` (so an LFN
without a slash gets `i = -1`: the "directory" is everything but the last
character and the "basename" is the whole string). -/
def parentSplit (lfn : String) : String × String :=
  let cs := lfn.toList
  match lastSlashIdx cs with
  | some i => (String.mk (cs.take i), String.mk (cs.drop (i + 1)))
  | none => (String.mk (cs.take (cs.length - 1)), lfn)

/-- Append a basename under its directory key, preserving first-insertion
order (the behaviour of `defaultdict(list)` over a Python 3.7+ dict). -/
def addToGroup : List (String × List String) → String → String → List (String × List String)
  | [], d, b => [(d, [b])]
  | g :: rest, d, b =>
    if g.1 == d then (g.1, g.2 ++ [b]) :: rest else g :: addToGroup rest d b

/-- `lfn_by_dir` of `downloadTasksForLFNs` (`sync_srm.py` lines 157-162). -/
def groupByDir (lfns : List String) : List (String × List String) :=
  lfns.foldl (fun acc lfn => addToGroup acc (parentSplit lfn).1 (parentSplit lfn).2) []

/-- Resolve the destination directory for one parent directory (`sync_srm.py`
lines 167-171): with a nonempty `--lfn-strip` list, the first configured
prefix the directory starts with is stripped and the rest appended to the
destination root; if no prefix matches, the `next(...)` call raises
`StopIteration`, which escapes `main` uncaught — the fatal `UnresolvedPrefix`
condition of the specification.  With no configured prefixes the whole
directory (left-stripped of slashes) is appended. -/
def resolveDestDir (dest : String) (lfnStrip : List String) (ldir : String) : Except String String :=
  match lfnStrip with
  | [] => .ok (pyPathJoin dest (pyLstripSlashes ldir))
  | _ :: _ =>
    match lfnStrip.find? (fun pre => pyStartsWith ldir pre) with
    | none => .error "UnresolvedPrefix"
    | some pre => .ok (pyPathJoin dest (pyLstripSlashes (pyDropChars ldir (pre.toList.length))))

/-- Running state of `downloadTasksForLFNs`: tasks built so far, the
filesystem, directories created, and warnings logged. -/
structure LState where
  tasks : List DownloadTask
  fs : FileSys
  mkdirs : List String
  warns : List String
deriving DecidableEq, Repr

/-- The per-file loop of one directory (`sync_srm.py` lines 174-175): look the
file up in the parsed `gfal-ls` output (`bytes_per_entry[fnm]`; a missing
entry raises `KeyError`) and construct the `DownloadTask`. -/
def filesGo (srm ldir destDir : String) (entries : List (String × Nat)) :
    FileSys → List String → Except String (List DownloadTask × FileSys × List String)
  | fs, [] => .ok ([], fs, [])
  | fs, fnm :: rest =>
    match (entries.find? (fun e => e.1 == fnm)).map (fun e => e.2) with
    | none => .error "KeyError"
    | some nb =>
      let mk := mkTask fs (joinUrlCore srm [ldir, fnm]) (joinUrlCore destDir [fnm]) nb
      match filesGo srm ldir destDir entries mk.fs rest with
      | .error e => .error e
      | .ok (ts, fs2, w2) => .ok (mk.task :: ts, fs2, mk.warns ++ w2)

/-- One iteration of the `for ldir, fnames in lfn_by_dir.items()` loop
(`sync_srm.py` lines 164-175): list the directory (oracle `listing` stands for
the parsed `gfal-ls -l` output), resolve the destination directory, create it
unless `--dry-run` was given or it exists, then build one task per file. -/
def dirStep (srm dest : String) (lfnStrip : List String)
    (listing : String → List (String × Nat)) (dryRun : Bool)
    (st : LState) (ldir : String) (fnames : List String) : Except String LState :=
  let entries := listing ldir
  match resolveDestDir dest lfnStrip ldir with
  | .error e => .error e
  | .ok destDir =>
    let needDir := !dryRun && !fsHasDir st.fs destDir
    let fs1 := if needDir then fsMkdir st.fs destDir else st.fs
    match filesGo srm ldir destDir entries fs1 fnames with
    | .error e => .error e
    | .ok (ts, fs2, w2) =>
      .ok ⟨st.tasks ++ ts, fs2, st.mkdirs ++ (if needDir then [destDir] else []), st.warns ++ w2⟩

/-- Fold `dirStep` over the grouped directories; any raised exception aborts
the whole call. -/
def dlTasksGo (srm dest : String) (lfnStrip : List String)
    (listing : String → List (String × Nat)) (dryRun : Bool) :
    LState → List (String × List String) → Except String LState
  | st, [] => .ok st
  | st, g :: rest =>
    match dirStep srm dest lfnStrip listing dryRun st g.1 g.2 with
    | .error e => .error e
    | .ok st1 => dlTasksGo srm dest lfnStrip listing dryRun st1 rest

/-- `downloadTasksForLFNs` (`sync_srm.py` lines 155-176). -/
def downloadTasksForLFNs (srm dest : String) (lfnStrip : List String)
    (listing : String → List (String × Nat)) (dryRun : Bool)
    (lfns : List String) (fs : FileSys) : Except String LState :=
  dlTasksGo srm dest lfnStrip listing dryRun ⟨[], fs, [], []⟩ (groupByDir lfns)

/-- Reading an LFN list file (`sync_srm.py` line 191): keep the stripped
content of every line whose strip is non-empty.  There is no filtering on a
leading `#`. -/
def readLFNs (lines : List String) : List String :=
  (lines.filter (fun ln => pyStripWS ln != "")).map pyStripWS

/-- The task-collection loop of `main` over explicit-list path arguments
(`sync_srm.py` lines 186-198): each file contributes its tasks; an exception
from `downloadTasksForLFNs` propagates and aborts `main`. -/
def mainLFNGo (srm dest : String) (lfnStrip : List String)
    (listing : String → List (String × Nat)) (dryRun : Bool) :
    FileSys → List DownloadTask → List (List String) → Except String (List DownloadTask × FileSys)
  | fs, acc, [] => .ok (acc, fs)
  | fs, acc, lines :: rest =>
    match downloadTasksForLFNs srm dest lfnStrip listing dryRun (readLFNs lines) fs with
    | .error e => .error e
    | .ok st => mainLFNGo srm dest lfnStrip listing dryRun st.fs (acc ++ st.tasks) rest

/-- `main` restricted to explicit-list path arguments: collect all tasks, then
run the download phase.  The download loop is only reached when every
`downloadTasksForLFNs` call returned normally. -/
def mainLFN (cwd srm dest : String) (lfnStrip : List String)
    (listing : String → List (String × Nat)) (dryRun : Bool) (fs : FileSys)
    (codes : List Int) (pathFiles : List (List String)) : Except String SchedResult :=
  match mainLFNGo srm dest lfnStrip listing dryRun fs [] pathFiles with
  | .error e => .error e
  | .ok pr => .ok (scheduler cwd pr.2 pr.1 codes dryRun)

/-- Whether an `Except` computation returned normally. -/
def exceptIsOk {α : Type} : Except String α → Bool
  | .ok _ => true
  | .error _ => false

/-! ## Construction-plus-download pipeline (used for the dry-run frame claim) -/

/-- Construct the `DownloadTask`s for a list of (origin, destination, size)
triples, threading the filesystem: the construction-time `_checkDone` effects
(warnings and deletions) happen here, before any scheduling decision. -/
def buildTasks : FileSys → List (String × String × Nat) →
    List DownloadTask × FileSys × List String × List String
  | fs, [] => ([], fs, [], [])
  | fs, sp :: rest =>
    let mk := mkTask fs sp.1 sp.2.1 sp.2.2
    let r := buildTasks mk.fs rest
    (mk.task :: r.1, r.2.1, mk.warns ++ r.2.2.1, mk.removed ++ r.2.2.2)

/-- Outcome of a construction-plus-download run. -/
structure PipelineOut where
  removed : List String
  warns : List String
  tasks : List DownloadTask
  sched : SchedResult
deriving DecidableEq, Repr

/-- Task construction followed by the download phase of `main`: the `--dry-run`
flag reaches only the scheduler (and the directory-creation sites), never the
construction-time classification. -/
def syncPipeline (dryRun : Bool) (cwd : String) (fs : FileSys)
    (specs : List (String × String × Nat)) (codes : List Int) : PipelineOut :=
  let b := buildTasks fs specs
  ⟨b.2.2.2, b.2.2.1, b.1, scheduler cwd b.2.1 b.1 codes dryRun⟩

/-! ## Helper lemmas -/

/-- Removing a file really removes it from the lookup. -/
theorem fsSize_fsRemove (fs : FileSys) (d : String) : fsSize (fsRemove fs d) d = none := by
  have h : (fs.files.filter (fun e => e.1 != d)).find? (fun e => e.1 == d) = none := by
    rw [List.find?_eq_none]
    intro x hx
    simp only [List.mem_filter, bne_iff_ne, ne_eq] at hx
    simp [hx.2]
  simp [fsSize, fsRemove, h]

/-- Removing one file leaves lookups of any other key unchanged. -/
theorem find?_filter_ne (files : List (String × Nat)) (d p : String) (hp : p ≠ d) :
    (files.filter (fun e => e.1 != d)).find? (fun e => e.1 == p) = files.find? (fun e => e.1 == p) := by
  induction files with
  | nil => rfl
  | cons x xs ih =>
    by_cases hxd : x.1 = d
    · have hxp : (x.1 == p) = false := by simp [hxd, Ne.symm hp]
      have hdp : (d == p) = false := by simp [Ne.symm hp]
      simp [List.filter_cons, hxd, List.find?_cons, hxp, hdp, ih]
    · by_cases hxp : x.1 = p <;> simp [List.filter_cons, hxd, List.find?_cons, hxp, hp, ih]

/-- Removing one file leaves the sizes of all other files unchanged. -/
theorem fsSize_fsRemove_other (fs : FileSys) (d p : String) (hp : p ≠ d) :
    fsSize (fsRemove fs d) p = fsSize fs p := by
  simp only [fsSize, fsRemove]
  rw [find?_filter_ne fs.files d p hp]

/-- Filtering twice with the same predicate is the same as filtering once. -/
theorem filter_self_idem {α : Type} (p : α → Bool) (l : List α) :
    (l.filter p).filter p = l.filter p := by
  induction l with
  | nil => rfl
  | cons x xs ih => by_cases hx : p x <;> simp [List.filter_cons, hx, ih]

/-- Every progress line a scheduler-loop run emits exceeds the completed-count
accumulator it started from. -/
theorem schedLoop_progress_gt (cwd : String) :
    ∀ (l : List (DownloadTask × Int)) (fs : FileSys) (cOK cD : Nat) (thr : List Nat),
      ∀ x ∈ (schedLoop cwd fs cOK cD thr l).progressLines, cD < x := by
  intro l
  induction l with
  | nil => intro fs cOK cD thr x hx; simp [schedLoop] at hx
  | cons p rest ih =>
    intro fs cOK cD thr x hx
    by_cases hf : (thr.head? == some (cD + 1)) = true
    · simp only [schedLoop, hf, if_true, List.mem_append, List.mem_singleton] at hx
      rcases hx with rfl | hx
      · omega
      · exact Nat.lt_of_succ_lt (ih _ _ _ _ x hx)
    · simp only [schedLoop, hf, if_false, List.nil_append] at hx
      exact Nat.lt_of_succ_lt (ih _ _ _ _ x hx)

/-- The progress lines of a scheduler-loop run are strictly increasing. -/
theorem schedLoop_progress_pairwise (cwd : String) :
    ∀ (l : List (DownloadTask × Int)) (fs : FileSys) (cOK cD : Nat) (thr : List Nat),
      ((schedLoop cwd fs cOK cD thr l).progressLines).Pairwise (· < ·) := by
  intro l
  induction l with
  | nil => intro fs cOK cD thr; simp [schedLoop]
  | cons p rest ih =>
    intro fs cOK cD thr
    by_cases hf : (thr.head? == some (cD + 1)) = true
    · simp only [schedLoop, hf, if_true, List.singleton_append]
      exact List.Pairwise.cons (fun x hx => schedLoop_progress_gt cwd _ _ _ _ _ x hx) (ih _ _ _ _)
    · simp only [schedLoop, hf, if_false, List.nil_append]
      exact ih _ _ _ _

/-- The probe tasks used for progress measurements are all pending. -/
theorem filter_not_done_replicate (n : Nat) :
    (List.replicate n probeTask).filter (fun t => !t.done) = List.replicate n probeTask := by
  induction n with
  | zero => rfl
  | succ m ih => simp [List.replicate_succ, List.filter_cons, probeTask, ih]

/-! ## C3: construction-time classification -/

/-- C3: at `DownloadTask` construction, a missing destination leaves the task
pending and the filesystem untouched; an on-disk size at least `expectedBytes`
(including strictly larger) marks the task done without modifying anything; a
smaller on-disk size leaves the task pending, deletes exactly that file, and
logs the size warning. -/
theorem c3_construction_classification (fs : FileSys) (o d : String) (n : Nat) :
    (fsSize fs d = none → mkTask fs o d n = ⟨⟨o, d, n, false⟩, fs, [], []⟩) ∧
    (∀ s, fsSize fs d = some s → n ≤ s → mkTask fs o d n = ⟨⟨o, d, n, true⟩, fs, [], []⟩) ∧
    (∀ s, fsSize fs d = some s → s < n →
      (mkTask fs o d n).task.done = false ∧
      fsSize (mkTask fs o d n).fs d = none ∧
      (∀ p, p ≠ d → fsSize (mkTask fs o d n).fs p = fsSize fs p) ∧
      (mkTask fs o d n).warns = [sizeWarnMsg d s n] ∧
      (mkTask fs o d n).removed = [d]) := by
  refine ⟨?_, ?_, ?_⟩
  · intro h
    simp [mkTask, checkDone, h]
  · intro s hs hle
    simp [mkTask, checkDone, hs, hle]
  · intro s hs hlt
    have hnle : ¬ n ≤ s := by omega
    refine ⟨?_, ?_, ?_, ?_, ?_⟩
    · simp [mkTask, checkDone, hs, hnle]
    · simp [mkTask, checkDone, hs, hnle, fsSize_fsRemove]
    · intro p hp
      simp only [mkTask, checkDone, hs, hnle, if_false]
      exact fsSize_fsRemove_other fs d p hp
    · simp [mkTask, checkDone, hs, hnle]
    · simp [mkTask, checkDone, hs, hnle]

/-- C3 witness: the three classification cases at concrete inputs. -/
theorem c3_construction_classification_witness :
    mkTask ⟨[], []⟩ "u" "/d/f" 3 = ⟨⟨"u", "/d/f", 3, false⟩, ⟨[], []⟩, [], []⟩ ∧
    mkTask ⟨[("/d/f", 7)], []⟩ "u" "/d/f" 5 = ⟨⟨"u", "/d/f", 5, true⟩, ⟨[("/d/f", 7)], []⟩, [], []⟩ ∧
    ((mkTask ⟨[("/d/f", 5)], []⟩ "u" "/d/f" 9).task.done = false ∧
      fsSize (mkTask ⟨[("/d/f", 5)], []⟩ "u" "/d/f" 9).fs "/d/f" = none ∧
      (mkTask ⟨[("/d/f", 5)], []⟩ "u" "/d/f" 9).warns = [sizeWarnMsg "/d/f" 5 9] ∧
      (mkTask ⟨[("/d/f", 5)], []⟩ "u" "/d/f" 9).removed = ["/d/f"]) := by
  refine ⟨(c3_construction_classification ⟨[], []⟩ "u" "/d/f" 3).1 rfl,
    (c3_construction_classification ⟨[("/d/f", 7)], []⟩ "u" "/d/f" 5).2.1 7 rfl (by omega), ?_⟩
  have h := (c3_construction_classification ⟨[("/d/f", 5)], []⟩ "u" "/d/f" 9).2.2 5 rfl (by omega)
  exact ⟨h.1, h.2.1, h.2.2.2.1, h.2.2.2.2⟩

/-! ## C1: a failed copy is logged but still reported as a success -/

/-- C1: concrete evidence.  Two pending tasks run; the first copy exits with
status 1.  `subproc_check_call` logs the non-zero exit together with the full
command line (which carries the origin URL and the destination), and the loop
goes on to the second task — but `run` still returns `("OK", "Downloaded")`
for the failed task, so the scheduler counts BOTH tasks as successful
(`countOK = 2`), contradicting the claim that a failed task is not counted
among the successful downloads. -/
theorem c1_failed_copy_counted_successful :
    (scheduler "" ⟨[], []⟩
      [⟨"srm://x/a.root", "/data/a.root", 5, false⟩, ⟨"srm://x/b.root", "/data/b.root", 5, false⟩]
      [1, 0] false).countOK = 2 ∧
    (scheduler "" ⟨[], []⟩
      [⟨"srm://x/a.root", "/data/a.root", 5, false⟩, ⟨"srm://x/b.root", "/data/b.root", 5, false⟩]
      [1, 0] false).countDone = 2 ∧
    (scheduler "" ⟨[], []⟩
      [⟨"srm://x/a.root", "/data/a.root", 5, false⟩, ⟨"srm://x/b.root", "/data/b.root", 5, false⟩]
      [1, 0] false).errors =
      ["Command \x27gfal-copy srm://x/a.root /data/a.root\x27 exited with status code 1"] ∧
    (runTask "" ⟨[], []⟩ ⟨"srm://x/a.root", "/data/a.root", 5, false⟩ 1).stat = "OK" ∧
    (runTask "" ⟨[], []⟩ ⟨"srm://x/a.root", "/data/a.root", 5, false⟩ 1).msg = "Downloaded" := by
  refine ⟨rfl, rfl, ?_, rfl, rfl⟩
  rfl

/-! ## C5: a failed copy still flips the status to done -/

/-- C5: concrete evidence.  `run` on a pending task whose copy exits with
status 1 spawns the copy command, logs the failure, and nevertheless sets
`_done = True`: the task transitions Pending → Done through an UNsuccessful
copy, which the claimed transition relation does not allow.  (A task that is
already done does return immediately without any copy invocation.) -/
theorem c5_failed_copy_marks_done :
    (runTask "" ⟨[], []⟩ ⟨"srm://x/c.root", "/data/c.root", 5, false⟩ 1).task.done = true ∧
    (runTask "" ⟨[], []⟩ ⟨"srm://x/c.root", "/data/c.root", 5, false⟩ 1).copies =
      ["gfal-copy srm://x/c.root /data/c.root"] ∧
    (runTask "" ⟨[], []⟩ ⟨"srm://x/c.root", "/data/c.root", 5, false⟩ 1).errors ≠ [] ∧
    (runTask "" ⟨[], []⟩ ⟨"srm://x/c.root", "/data/c.root", 5, true⟩ 0).copies = [] ∧
    (runTask "" ⟨[], []⟩ ⟨"srm://x/c.root", "/data/c.root", 5, true⟩ 0).msg =
      "Already downloaded" := by
  refine ⟨rfl, rfl, ?_, rfl, rfl⟩
  decide

/-! ## C2: progress thresholds -/

/-- C2 counterexample: for `N = 37` the claim demands that every threshold
mapping to a distinct completed-count (in particular the value `37`, the
threshold for 100%) be reported exactly once — but the first precomputed
threshold is `round(37/100) = 0`, the completed count starts at 1 and the
iterator only advances on an exact match, so NO progress line at all is
emitted. -/
theorem c2_counterexample :
    reportedCounts 37 = [] ∧ (progThresholds 37).contains 37 = true := by
  constructor
  · rfl
  · decide

/-- C2 (amended): a progress line is emitted exactly when the completed count
equals the current head of the precomputed threshold list, and only then does
the list advance (by one element).  Consequently the reported counts are
strictly increasing — no threshold is ever reported twice — but thresholds are
not deduplicated and can be skipped outright: once the completed count passes
the current threshold (which happens whenever thresholds repeat, or
immediately when the first threshold is 0, as for any `N ≤ 50`), reporting
stops.  In particular for `N = 37` no progress line is ever emitted. -/
theorem c2_progress_amended :
    (∀ n : Nat, ((reportedCounts n).Pairwise (· < ·))) ∧ reportedCounts 37 = [] := by
  constructor
  · intro n
    cases n with
    | zero => simp [reportedCounts, scheduler]
    | succ m =>
      unfold reportedCounts scheduler
      rw [filter_not_done_replicate]
      simp only [List.replicate_succ, List.isEmpty_cons, Bool.false_or, Bool.or_false, if_false]
      exact schedLoop_progress_pairwise "" _ _ _ _ _
  · rfl

/-! ## C6: the "." segments in `joinUrl` -/

/-- C6 counterexample: a first segment equal to `"."` (after trimming
separators) is NOT dropped — the comprehension in `joinUrl` exempts index 0 —
so `joinUrl("./", "b")` yields `"./b"`, not the `"b"` that dropping in every
position would give. -/
theorem c6_counterexample :
    joinUrl ["./", "b"] = Except.ok "./b" ∧ joinUrl ["b"] = Except.ok "b" ∧
      ("./b" : String) ≠ "b" := by
  refine ⟨rfl, rfl, ?_⟩
  decide

/-- C6 (amended): when two or more segments are passed, every segment OTHER
THAN THE FIRST that equals `"."` after trimming separators is dropped (the
first segment is always kept, even when it is `"."`; a lone segment is
likewise returned unchanged); consequently `join("a/", "./", "b")` and
`join("a", "b")` produce the same normalized result. -/
theorem c6_join_amended :
    (∀ (a : String) (ps : List String),
      joinUrl (a :: ps) = joinUrl (a :: ps.filter (fun p => pyStripSlashes p != "."))) ∧
    joinUrl ["a/", "./", "b"] = joinUrl ["a", "b"] := by
  constructor
  · intro a ps
    simp only [joinUrl, Except.ok.injEq]
    cases ps with
    | nil => rfl
    | cons q qs =>
      unfold joinUrlCore
      cases hf : (q :: qs).filter (fun p => pyStripSlashes p != ".") with
      | nil => simp [hf]
      | cons r rs =>
        have h2 : ((q :: qs).filter (fun p => pyStripSlashes p != ".")).filter
            (fun p => pyStripSlashes p != ".") = (q :: qs).filter (fun p => pyStripSlashes p != ".") :=
          filter_self_idem _ _
        rw [hf] at h2
        simp [hf, h2]
  · rfl

/-! ## C8: reading an LFN list file -/

/-- C8 counterexample: a line whose first character is `#` is NOT ignored —
`main` only drops blank lines — and it flows through `downloadTasksForLFNs`
into a real `DownloadTask` (here with listing oracle output `f.root`, 7
bytes, under the parent directory `#d`). -/
theorem c8_counterexample :
    readLFNs ["#d/f.root", "", "   "] = ["#d/f.root"] ∧
    downloadTasksForLFNs "srm://x" "/data" []
        (fun d => if d == "#d" then [("f.root", 7)] else []) false
        (readLFNs ["#d/f.root", "", "   "]) ⟨[], []⟩ =
      .ok ⟨[⟨"srm://x/#d/f.root", "/data/#d/f.root", 7, false⟩],
        ⟨[], ["/data/#d"]⟩, ["/data/#d"], []⟩ := by
  exact ⟨rfl, rfl⟩

/-- C8 (amended): the LFN list reader ignores exactly the blank
(whitespace-only) lines; every other line — including one starting with `#` —
contributes its stripped content as a logical name, which downstream produces
a `DownloadTask` like any other name. -/
theorem c8_blank_lines_only :
    (∀ (lines : List String) (l : String), l ∈ readLFNs lines → l ≠ "") ∧
    (∀ (lines : List String) (ln : String), ln ∈ lines → pyStripWS ln ≠ "" →
      pyStripWS ln ∈ readLFNs lines) := by
  constructor
  · intro lines l hl
    simp only [readLFNs, List.mem_map, List.mem_filter, bne_iff_ne, ne_eq] at hl
    obtain ⟨ln, ⟨_, hne⟩, rfl⟩ := hl
    exact hne
  · intro lines ln hmem hne
    simp only [readLFNs, List.mem_map]
    exact ⟨ln, List.mem_filter.mpr ⟨hmem, by simpa [bne_iff_ne] using hne⟩, rfl⟩

/-- C8 witness: the reader keeps the stripped `#`-prefixed line of a concrete
file. -/
theorem c8_blank_lines_only_witness :
    pyStripWS " #/store/x.root " ∈ readLFNs [" #/store/x.root ", ""] ∧
    pyStripWS " #/store/x.root " ≠ "" := by
  refine ⟨c8_blank_lines_only.2 [" #/store/x.root ", ""] " #/store/x.root " ?_ ?_, ?_⟩
  · decide
  · decide
  · decide

/-! ## C9: dry-run side effects -/

/-- C9: dry-run is not free of local-disk side effects.  With the flag set the
pipeline performs no copy invocation and creates no directory, and yet the
construction-time classification removes exactly the same files a real run
would remove; in particular a single task whose destination exists with a size
strictly below `expectedBytes` still gets that file deleted. -/
theorem c9_dry_run_still_deletes (cwd : String) (fs : FileSys)
    (specs : List (String × String × Nat)) (codes : List Int) :
    (syncPipeline true cwd fs specs codes).sched.copies = [] ∧
    (syncPipeline true cwd fs specs codes).sched.mkdirs = [] ∧
    (syncPipeline true cwd fs specs codes).removed = (syncPipeline false cwd fs specs codes).removed ∧
    (∀ o d n s, fsSize fs d = some s → s < n →
      (syncPipeline true cwd fs [(o, d, n)] codes).removed = [d]) := by
  refine ⟨?_, ?_, rfl, ?_⟩
  · simp [syncPipeline, scheduler]
  · simp [syncPipeline, scheduler]
  · intro o d n s hs hlt
    have hnle : ¬ n ≤ s := by omega
    simp [syncPipeline, buildTasks, mkTask, checkDone, hs, hnle]

/-- C9 witness: a dry run over one task whose destination holds 3 bytes while
9 are expected deletes the file while invoking nothing. -/
theorem c9_dry_run_still_deletes_witness :
    (syncPipeline true "" ⟨[("/data/f.root", 3)], []⟩ [("u", "/data/f.root", 9)] []).removed =
      ["/data/f.root"] ∧
    (syncPipeline true "" ⟨[("/data/f.root", 3)], []⟩ [("u", "/data/f.root", 9)] []).sched.copies = [] ∧
    (syncPipeline true "" ⟨[("/data/f.root", 3)], []⟩ [("u", "/data/f.root", 9)] []).sched.mkdirs = [] := by
  have h := c9_dry_run_still_deletes "" ⟨[("/data/f.root", 3)], []⟩ [("u", "/data/f.root", 9)] []
  exact ⟨h.2.2.2 "u" "/data/f.root" 9 3 rfl (by omega), h.1, h.2.1⟩

/-! ## Harvest lemmas -/

/-- With no remaining depth, a harvest issues exactly one listing: the current
node, at the current level. -/
theorem harvest_level_zero (srm ob db : String) (dirSel : Nat → String → Bool)
    (fnSel : String → Bool) (t : RTree) (path : String) (lvl : Nat) :
    (harvest srm ob db dirSel fnSel t path lvl 0).listings = [(lvl, path)] := rfl

/-- Every listing a harvest issues sits at a level bounded by the starting
level plus the remaining depth. -/
theorem harvest_listing_level_le (srm ob db : String) (dirSel : Nat → String → Bool)
    (fnSel : String → Bool) :
    ∀ (rem : Nat) (t : RTree) (path : String) (lvl : Nat) (e : Nat × String),
      e ∈ (harvest srm ob db dirSel fnSel t path lvl rem).listings → e.1 ≤ lvl + rem := by
  intro rem
  induction rem with
  | zero =>
    intro t path lvl e he
    simp only [harvest, harvestHere, List.mem_singleton] at he
    simp [he]
  | succ m ih =>
    intro t path lvl e he
    simp only [harvest, List.mem_append, List.mem_flatten, List.mem_map] at he
    rcases he with he | ⟨l, ⟨c, hc, rfl⟩, hel⟩
    · simp only [harvestHere, List.mem_singleton] at he
      simp [he]
    · simp only [List.mem_map, List.mem_filter] at hc
      obtain ⟨sd, _, rfl⟩ := hc
      have := ih sd.2 (joinUrlCore path [sd.1]) (lvl + 1) e hel
      omega

/-- On the linear probe tree, the listing levels are exactly the first
`min rem depth + 1` levels starting from the current one. -/
theorem harvest_chain_levels :
    ∀ (d : Nat) (path : String) (lvl rem : Nat),
      ((harvest "s" "o" "d" (fun _ _ => true) (fun _ => true)
        (chainTree d) path lvl rem).listings).map (fun e => e.1) =
        List.range' lvl (min rem d + 1) := by
  intro d
  induction d with
  | zero =>
    intro path lvl rem
    cases rem with
    | zero => simp [harvest, harvestHere, List.range']
    | succ m => simp [harvest, harvestHere, chainTree, subdirsOf, List.range']
  | succ k ih =>
    intro path lvl rem
    cases rem with
    | zero => simp [harvest, harvestHere, List.range']
    | succ m =>
      simp only [harvest, chainTree, subdirsOf, harvestHere, filesOf, List.filter_nil,
        List.map_nil, List.filter_cons, if_true, List.map_cons, List.flatten,
        List.map_append, List.append_nil, List.nil_append, List.singleton_append,
        List.map_map]
      rw [Nat.succ_min_succ]
      simp only [List.range']
      simp [ih, List.range'_succ]

/-- Every (path, name, size) triple a harvest yields passed the file
selector. -/
theorem harvest_names_sel (srm ob db : String) (dirSel : Nat → String → Bool)
    (fnSel : String → Bool) :
    ∀ (rem : Nat) (t : RTree) (path : String) (lvl : Nat) (x : String × String × Nat),
      x ∈ (harvest srm ob db dirSel fnSel t path lvl rem).names → fnSel x.2.1 = true := by
  intro rem
  induction rem with
  | zero =>
    intro t path lvl x hx
    simp only [harvest, harvestHere, List.mem_map, List.mem_filter] at hx
    obtain ⟨f, ⟨_, hsel⟩, rfl⟩ := hx
    exact hsel
  | succ m ih =>
    intro t path lvl x hx
    simp only [harvest, List.mem_append, List.mem_flatten, List.mem_map] at hx
    rcases hx with hx | ⟨l, ⟨c, hc, rfl⟩, hxl⟩
    · simp only [harvestHere, List.mem_map, List.mem_filter] at hx
      obtain ⟨f, ⟨_, hsel⟩, rfl⟩ := hx
      exact hsel
    · simp only [List.mem_map, List.mem_filter] at hc
      obtain ⟨sd, _, rfl⟩ := hc
      exact ih sd.2 (joinUrlCore path [sd.1]) (lvl + 1) x hxl

/-- The tasks a harvest yields are exactly the images of its (path, name,
size) triples under the task constructor arguments of line 134. -/
theorem harvest_tasks_names (srm ob db : String) (dirSel : Nat → String → Bool)
    (fnSel : String → Bool) :
    ∀ (rem : Nat) (t : RTree) (path : String) (lvl : Nat),
      (harvest srm ob db dirSel fnSel t path lvl rem).tasks =
        ((harvest srm ob db dirSel fnSel t path lvl rem).names).map (taskOfName srm ob db) := by
  intro rem
  induction rem with
  | zero =>
    intro t path lvl
    simp [harvest, harvestHere, taskOfName, List.map_map]
  | succ m ih =>
    intro t path lvl
    simp only [harvest, List.map_append]
    congr 1
    · simp [harvestHere, taskOfName, List.map_map]
    · rw [List.map_flatten]
      congr 1
      simp only [List.map_map]
      apply List.map_congr_left
      intro sd _
      simp only [Function.comp]
      exact ih sd.2 (joinUrlCore path [sd.1]) (lvl + 1)

/-! ## C7: depth limiting -/

/-- C7: for any configured maximum depth `N ≥ 1` (so remaining depth `N - 1`,
the value `main` passes at line 195): with max-depth 1 the harvester issues
exactly one listing, at the first level; in general every listing level is
bounded by the starting level plus the remaining depth (the harvester only
recurses while the remaining-depth counter is positive, decrementing it and
incrementing the level); and on a permissive linear tree of depth `N` the
listing levels are exactly `0, …, N-1` — `N` levels, no more. -/
theorem c7_depth_limiting (N : Nat) (hN : 1 ≤ N) :
    (∀ (srm ob db : String) (dirSel : Nat → String → Bool) (fnSel : String → Bool)
      (t : RTree) (path : String) (lvl : Nat),
      (harvest srm ob db dirSel fnSel t path lvl 0).listings = [(lvl, path)]) ∧
    (∀ (srm ob db : String) (dirSel : Nat → String → Bool) (fnSel : String → Bool)
      (rem : Nat) (t : RTree) (path : String) (lvl : Nat) (e : Nat × String),
      e ∈ (harvest srm ob db dirSel fnSel t path lvl rem).listings → e.1 ≤ lvl + rem) ∧
    ((harvest "s" "o" "d" (fun _ _ => true) (fun _ => true)
      (chainTree N) "." 0 (N - 1)).listings).map (fun e => e.1) = List.range N := by
  refine ⟨fun srm ob db dirSel fnSel t path lvl => harvest_level_zero srm ob db dirSel fnSel t path lvl,
    fun srm ob db dirSel fnSel rem t path lvl e he =>
      harvest_listing_level_le srm ob db dirSel fnSel rem t path lvl e he, ?_⟩
  rw [harvest_chain_levels N "." 0 (N - 1)]
  have hm : min (N - 1) N + 1 = N := by omega
  rw [hm, List.range_eq_range']

/-- C7 witness: at `N = 2` the linear tree is listed at levels 0 and 1; at
remaining depth 0 a concrete tree gets exactly one first-level listing, and
that listing's level satisfies the general bound. -/
theorem c7_depth_limiting_witness :
    ((harvest "s" "o" "d" (fun _ _ => true) (fun _ => true)
      (chainTree 2) "." 0 1).listings).map (fun e => e.1) = List.range 2 ∧
    (harvest "s" "o" "d" (fun _ _ => true) (fun _ => true)
      (chainTree 1) "." 0 0).listings = [(0, ".")] ∧
    ((0, ("." : String)).1 ≤ 0 + 0) := by
  have h := c7_depth_limiting 2 (by omega)
  refine ⟨h.2.2, h.1 "s" "o" "d" (fun _ _ => true) (fun _ => true) (chainTree 1) "." 0, ?_⟩
  exact h.2.1 "s" "o" "d" (fun _ _ => true) (fun _ => true) 0 (chainTree 1) "." 0 (0, ".") (by decide)

/-! ## C10: the hard-coded exclusion of `muonSet_randomized.root` -/

/-- C10: the default file selector conjoins the configured glob with the
hard-coded inequality against `"muonSet_randomized.root"`, so it rejects that
name for EVERY glob pattern; consequently no (path, name, size) triple the
harvester selects carries that name, and since the yielded tasks are exactly
the images of the selected triples, no `DownloadTask` is ever produced for a
remote file with that name. -/
theorem c10_muonset_never_harvested (pat srm ob db : String)
    (dirSel : Nat → String → Bool) (t : RTree) (path : String) (lvl rem : Nat) :
    fnFilter pat "muonSet_randomized.root" = false ∧
    "muonSet_randomized.root" ∉
      ((harvest srm ob db dirSel (fnFilter pat) t path lvl rem).names).map (fun x => x.2.1) ∧
    (harvest srm ob db dirSel (fnFilter pat) t path lvl rem).tasks =
      ((harvest srm ob db dirSel (fnFilter pat) t path lvl rem).names).map (taskOfName srm ob db) := by
  refine ⟨by simp [fnFilter], ?_, harvest_tasks_names srm ob db dirSel (fnFilter pat) rem t path lvl⟩
  intro hmem
  simp only [List.mem_map] at hmem
  obtain ⟨x, hx, hname⟩ := hmem
  have hsel := harvest_names_sel srm ob db dirSel (fnFilter pat) rem t path lvl x hx
  rw [hname] at hsel
  simp [fnFilter] at hsel

/-- C10 witness: on a concrete directory holding `muonSet_randomized.root`
(7 bytes) and `a.root` (3 bytes) with the default glob `*.root`, the selector
rejects the hard-coded name and it does not appear among the harvested
names. -/
theorem c10_muonset_never_harvested_witness :
    fnFilter "*.root" "muonSet_randomized.root" = false ∧
    "muonSet_randomized.root" ∉
      ((harvest "s" "o" "d" (fun _ _ => true) (fnFilter "*.root")
        (RTree.node [] [(7, "muonSet_randomized.root"), (3, "a.root")]) "." 0 0).names).map
        (fun x => x.2.1) := by
  have h := c10_muonset_never_harvested "*.root" "s" "o" "d" (fun _ _ => true)
    (RTree.node [] [(7, "muonSet_randomized.root"), (3, "a.root")]) "." 0 0
  exact ⟨h.1, h.2.1⟩

/-! ## C4: an unresolved prefix aborts the run -/

/-- With a nonempty strip list none of whose prefixes matches the directory,
destination resolution raises. -/
theorem resolveDestDir_error (dest ldir : String) (lfnStrip : List String)
    (hne : lfnStrip ≠ []) (h : ∀ pre ∈ lfnStrip, pyStartsWith ldir pre = false) :
    resolveDestDir dest lfnStrip ldir = .error "UnresolvedPrefix" := by
  cases lfnStrip with
  | nil => exact absurd rfl hne
  | cons p ps =>
    have hnone : (p :: ps).find? (fun pre => pyStartsWith ldir pre) = none := by
      rw [List.find?_eq_none]
      intro x hx
      simp [h x hx]
    simp [resolveDestDir, hnone]

/-- A directory step on a directory no configured prefix covers raises. -/
theorem dirStep_error (srm dest : String) (lfnStrip : List String)
    (listing : String → List (String × Nat)) (dryRun : Bool) (st : LState)
    (ldir : String) (fnames : List String)
    (hne : lfnStrip ≠ []) (h : ∀ pre ∈ lfnStrip, pyStartsWith ldir pre = false) :
    dirStep srm dest lfnStrip listing dryRun st ldir fnames = .error "UnresolvedPrefix" := by
  simp [dirStep, resolveDestDir_error dest ldir lfnStrip hne h]

/-- If some grouped directory is uncovered, the directory fold raises
(whatever the state it starts from). -/
theorem dlTasksGo_error (srm dest : String) (lfnStrip : List String)
    (listing : String → List (String × Nat)) (dryRun : Bool)
    (hne : lfnStrip ≠ []) :
    ∀ (groups : List (String × List String)) (st : LState),
      (∃ g ∈ groups, ∀ pre ∈ lfnStrip, pyStartsWith g.1 pre = false) →
      exceptIsOk (dlTasksGo srm dest lfnStrip listing dryRun st groups) = false := by
  intro groups
  induction groups with
  | nil => intro st hg; simp at hg
  | cons g gs ih =>
    intro st hg
    obtain ⟨g0, hg0, hpre⟩ := hg
    rcases List.mem_cons.mp hg0 with rfl | htail
    · rw [dlTasksGo, dirStep_error srm dest lfnStrip listing dryRun st g0.1 g0.2 hne hpre]
      rfl
    · rw [dlTasksGo]
      cases hstep : dirStep srm dest lfnStrip listing dryRun st g.1 g.2 with
      | error e => rfl
      | ok st1 => exact ih st1 ⟨g0, htail, hpre⟩

/-- Inserting a key into the grouping makes the key present. -/
theorem addToGroup_key_mem (acc : List (String × List String)) (d b : String) :
    d ∈ (addToGroup acc d b).map (fun g => g.1) := by
  induction acc with
  | nil => simp [addToGroup]
  | cons g gs ih =>
    by_cases hg : g.1 = d
    · simp [addToGroup, hg]
    · simp only [addToGroup, hg]
      simp only [show (g.1 == d) = false by simp [hg], Bool.false_eq_true, if_false,
        List.map_cons, List.mem_cons]
      exact Or.inr ih

/-- Inserting into the grouping preserves every key already present. -/
theorem addToGroup_key_sub (acc : List (String × List String)) (d b k : String)
    (hk : k ∈ acc.map (fun g => g.1)) :
    k ∈ (addToGroup acc d b).map (fun g => g.1) := by
  induction acc with
  | nil => simp at hk
  | cons g gs ih =>
    by_cases hg : g.1 = d
    · simpa [addToGroup, hg] using hk
    · simp only [addToGroup, show (g.1 == d) = false by simp [hg], Bool.false_eq_true,
        if_false, List.map_cons, List.mem_cons] at hk ⊢
      rcases hk with hk | hk
      · exact Or.inl hk
      · exact Or.inr (ih hk)

/-- Folding more names over the grouping preserves every key already
present. -/
theorem groupFold_key_mono (lfns : List String) :
    ∀ (acc : List (String × List String)) (k : String), k ∈ acc.map (fun g => g.1) →
      k ∈ (lfns.foldl (fun a lfn => addToGroup a (parentSplit lfn).1 (parentSplit lfn).2) acc).map
        (fun g => g.1) := by
  induction lfns with
  | nil => intro acc k hk; simpa using hk
  | cons l ls ih =>
    intro acc k hk
    exact ih _ k (addToGroup_key_sub acc (parentSplit l).1 (parentSplit l).2 k hk)

/-- Every LFN folded over the grouping leaves its parent directory among the
keys, whatever the accumulator. -/
theorem groupFold_key_of_mem (lfns : List String) :
    ∀ (acc : List (String × List String)) (lfn : String), lfn ∈ lfns →
      (parentSplit lfn).1 ∈
        (lfns.foldl (fun a l => addToGroup a (parentSplit l).1 (parentSplit l).2) acc).map
          (fun g => g.1) := by
  induction lfns with
  | nil => intro acc lfn hmem; simp at hmem
  | cons l ls ih =>
    intro acc lfn hmem
    rcases List.mem_cons.mp hmem with rfl | htail
    · exact groupFold_key_mono ls _ _
        (addToGroup_key_mem acc (parentSplit lfn).1 (parentSplit lfn).2)
    · exact ih _ lfn htail

/-- Every LFN's parent directory appears among the grouped keys. -/
theorem groupByDir_key_of_mem (lfns : List String) (lfn : String) (hmem : lfn ∈ lfns) :
    (parentSplit lfn).1 ∈ (groupByDir lfns).map (fun g => g.1) := by
  unfold groupByDir
  exact groupFold_key_of_mem lfns [] lfn hmem

/-- A batch of LFNs containing one whose parent directory no configured prefix
covers makes `downloadTasksForLFNs` raise. -/
theorem downloadTasksForLFNs_error (srm dest : String) (lfnStrip : List String)
    (listing : String → List (String × Nat)) (dryRun : Bool)
    (lfns : List String) (fs : FileSys) (hne : lfnStrip ≠ [])
    (lfn : String) (hmem : lfn ∈ lfns)
    (hpre : ∀ pre ∈ lfnStrip, pyStartsWith (parentSplit lfn).1 pre = false) :
    exceptIsOk (downloadTasksForLFNs srm dest lfnStrip listing dryRun lfns fs) = false := by
  unfold downloadTasksForLFNs
  apply dlTasksGo_error srm dest lfnStrip listing dryRun hne
  obtain ⟨g, hg, hkey⟩ := List.mem_map.mp (groupByDir_key_of_mem lfns lfn hmem)
  exact ⟨g, hg, by rw [hkey]; exact hpre⟩

/-- The per-path-file loop raises as soon as one of the files contains an
uncovered LFN, whatever tasks were already accumulated. -/
theorem mainLFNGo_error (srm dest : String) (lfnStrip : List String)
    (listing : String → List (String × Nat)) (dryRun : Bool) (hne : lfnStrip ≠ []) :
    ∀ (pathFiles : List (List String)) (fs : FileSys) (acc : List DownloadTask),
      (∃ lines ∈ pathFiles, ∃ lfn ∈ readLFNs lines,
        ∀ pre ∈ lfnStrip, pyStartsWith (parentSplit lfn).1 pre = false) →
      exceptIsOk (mainLFNGo srm dest lfnStrip listing dryRun fs acc pathFiles) = false := by
  intro pathFiles
  induction pathFiles with
  | nil => intro fs acc hbad; simp at hbad
  | cons lines rest ih =>
    intro fs acc hbad
    obtain ⟨lines0, hlines0, lfn, hlfn, hpre⟩ := hbad
    rcases List.mem_cons.mp hlines0 with rfl | htail
    · have herr := downloadTasksForLFNs_error srm dest lfnStrip listing dryRun
        (readLFNs lines0) fs hne lfn hlfn hpre
      rw [mainLFNGo]
      cases hdl : downloadTasksForLFNs srm dest lfnStrip listing dryRun (readLFNs lines0) fs with
      | error e => rfl
      | ok st => rw [hdl] at herr; exact absurd herr (by simp [exceptIsOk])
    · rw [mainLFNGo]
      cases hdl : downloadTasksForLFNs srm dest lfnStrip listing dryRun (readLFNs lines) fs with
      | error e => rfl
      | ok st => exact ih st.fs (acc ++ st.tasks) ⟨lines0, htail, lfn, hlfn, hpre⟩

/-- C4: in explicit-list mode with a nonempty `--lfn-strip` configuration, a
run whose LFN-list files contain a name whose parent directory starts with
none of the configured prefixes raises (`UnresolvedPrefix`, the uncaught
`StopIteration` of line 168) before the download phase: `main` never reaches
the scheduler, so no `DownloadTask` of the run is executed. -/
theorem c4_unresolved_prefix_aborts (cwd srm dest : String) (lfnStrip : List String)
    (listing : String → List (String × Nat)) (dryRun : Bool) (fs : FileSys)
    (codes : List Int) (pathFiles : List (List String)) (hne : lfnStrip ≠ [])
    (hbad : ∃ lines ∈ pathFiles, ∃ lfn ∈ readLFNs lines,
      ∀ pre ∈ lfnStrip, pyStartsWith (parentSplit lfn).1 pre = false) :
    exceptIsOk (mainLFN cwd srm dest lfnStrip listing dryRun fs codes pathFiles) = false := by
  have h := mainLFNGo_error srm dest lfnStrip listing dryRun hne pathFiles fs [] hbad
  unfold mainLFN
  cases hgo : mainLFNGo srm dest lfnStrip listing dryRun fs [] pathFiles with
  | error e => rfl
  | ok pr => rw [hgo] at h; exact absurd h (by simp [exceptIsOk])

/-- C4 witness: with configured prefix `/store/`, a single list file holding
`/other/d/f.root` aborts the run. -/
theorem c4_unresolved_prefix_aborts_witness :
    exceptIsOk (mainLFN "" "srm://x" "/data" ["/store/"] (fun _ => []) false
      ⟨[], []⟩ [] [["/other/d/f.root"]]) = false := by
  apply c4_unresolved_prefix_aborts "" "srm://x" "/data" ["/store/"] (fun _ => []) false
    ⟨[], []⟩ [] [["/other/d/f.root"]]
  · decide
  · refine ⟨["/other/d/f.root"], by decide, "/other/d/f.root", by decide, ?_⟩
    decide
